import Mathlib

/-!
Verification development for the workspace file-tracking core
(`src/files_in_workspace.rs` of refact-lsp).

Shallow embedding conventions:
* A filesystem path (`std::path::PathBuf`) is a `PathB`: an absoluteness flag
  plus the list of path components (each component one `String`).
* A `url::Url` produced by `Url::from_file_path` is a `Url`: the list of
  percent-encoded path segments.  `Url::from_file_path` fails exactly when the
  path is not absolute; `Url::to_file_path` percent-decodes the segments.
  Component bytes are modelled as `Char`s with code points below 256.
* `ropey::Rope` text is modelled as `String`.
* The external validity predicate `is_valid_file` (defined in
  `vecdb/file_filter.rs`, outside this fragment) is a parameter
  `valid : PathB → Bool`; the claims quantify over it.
* The external version-control listing (`git ls-files` etc., run by
  `_ls_files_under_version_control`) is a parameter
  `vc : List String → Option (List (List String))`: given the absolute
  components of a directory it returns `some` list of relative tracked-file
  paths (tool present and exit code zero) or `none` (fall back to manual walk).
* Disk contents are a parameter `disk : PathB → Option String`
  (`none` = I/O error).
* Stateful operations are embedded as functions producing a trace of atomic
  effects (`Eff`); each effect corresponds to one critical section in the
  source (one lock acquisition).  `applyTrace` folds the state-changing
  effects over a `DocumentsState`.
* A Rust panic (`unwrap()` on a failed conversion) is modelled by the
  enclosing operation returning `none`.
-/

/-! ## Percent-encoding model of `url::Url` file paths -/

/-- Upper-case hexadecimal digit, as emitted by the url crate's
percent-encoder. -/
def hexUpper (n : Nat) : Char :=
  if n < 10 then Char.ofNat (48 + n) else Char.ofNat (55 + n)

/-- Value of a hexadecimal digit character (upper or lower case). -/
def hexVal (c : Char) : Option Nat :=
  if 48 ≤ c.toNat ∧ c.toNat ≤ 57 then some (c.toNat - 48)
  else if 65 ≤ c.toNat ∧ c.toNat ≤ 70 then some (c.toNat - 55)
  else if 97 ≤ c.toNat ∧ c.toNat ≤ 102 then some (c.toNat - 87)
  else none

/-- Bytes escaped in a URL path segment: controls, space, the quote, hash,
angle brackets, question mark, backquote, curly brackets, the percent sign
itself, and everything at or above DEL. -/
def needsEscape (c : Char) : Bool :=
  c.toNat < 32 || c.toNat ≥ 127 ||
  [32, 34, 35, 60, 62, 63, 96, 123, 125, 37].contains c.toNat

/-- Percent-encode one byte (character with code point below 256). -/
def percentEncodeChar (c : Char) : List Char :=
  if needsEscape c then
    [Char.ofNat 37, hexUpper (c.toNat / 16 % 16), hexUpper (c.toNat % 16)]
  else [c]

/-- Percent-encode a path component. -/
def percentEncode (s : String) : String :=
  String.mk ((s.data.map percentEncodeChar).flatten)

/-- Percent-decode a list of characters; `none` on a malformed escape. -/
def percentDecodeAux : List Char → Option (List Char)
  | [] => some []
  | c :: rest =>
    if c = Char.ofNat 37 then
      match rest with
      | h1 :: h2 :: rest2 =>
        match hexVal h1, hexVal h2 with
        | some v1, some v2 =>
          (percentDecodeAux rest2).map (fun l => Char.ofNat (16 * v1 + v2) :: l)
        | _, _ => none
      | _ => none
    else
      (percentDecodeAux rest).map (fun l => c :: l)

/-- Percent-decode a URL path segment back into a path component. -/
def percentDecode (s : String) : Option String :=
  (percentDecodeAux s.data).map String.mk

/-! ## Paths and URLs -/

/-- Model of `std::path::PathBuf`: absoluteness flag plus components. -/
structure PathB where
  absolute : Bool
  components : List String
deriving DecidableEq

/-- Model of a `file://` `url::Url`: percent-encoded path segments. -/
structure Url where
  segs : List String
deriving DecidableEq

/-- Model of `Url::from_file_path`: succeeds exactly on absolute paths,
percent-encoding every component. -/
def url_from_file_path (p : PathB) : Option Url :=
  if p.absolute then some ⟨p.components.map percentEncode⟩ else none

/-- Model of `Url::to_file_path`: percent-decode every segment. -/
def url_to_file_path (u : Url) : Option PathB :=
  (u.segs.mapM percentDecode).map (fun cs => ⟨true, cs⟩)

/-- Model of `pathbuf_to_url` (source lines 175-184): make the path absolute
by joining the current directory when needed (`cwd = none` models
`std::env::current_dir()` failing), then `Url::from_file_path`. -/
def pathbuf_to_url (cwd : Option (List String)) (path : PathB) : Except String Url :=
  let absolute_path : Option PathB :=
    if path.absolute then some path
    else cwd.map (fun d => ⟨true, d ++ path.components⟩)
  match absolute_path with
  | none => Except.error "current_dir failed"
  | some ap =>
    match url_from_file_path ap with
    | some u => Except.ok u
    | none => Except.error "Failed to convert path to URL"

/-- Shortcut for the always-successful conversion of an absolute path. -/
def url_of_abs_path (comps : List String) : Url :=
  ⟨comps.map percentEncode⟩

/-! ## Documents -/

/-- Model of `Document` (source lines 25-36): language id plus text. -/
structure Document where
  language_id : String
  text : String
deriving DecidableEq

/-- Model of `DocumentInfo` (source lines 38-48): identity plus optional
open-editor overlay. -/
structure DocumentInfo where
  uri : Url
  document : Option Document
deriving DecidableEq

/-- Model of `DocumentInfo::get_path` (source lines 83-86):
`to_file_path().unwrap_or_default()`. -/
def DocumentInfo.get_path (di : DocumentInfo) : PathB :=
  (url_to_file_path di.uri).getD ⟨true, []⟩

/-- Model of `DocumentInfo::read_file` (source lines 88-95): the overlay text
when an overlay is present, otherwise the on-disk content at `get_path`. -/
def DocumentInfo.read_file (disk : PathB → Option String) (di : DocumentInfo) : Option String :=
  match di.document with
  | some doc => some doc.text
  | none => disk di.get_path

/-- Model of `DocumentInfo::from_pathbuf` (source lines 63-68). -/
def DocumentInfo.from_pathbuf (cwd : Option (List String)) (path : PathB) :
    Except String DocumentInfo :=
  match pathbuf_to_url cwd path with
  | Except.ok uri => Except.ok ⟨uri, none⟩
  | Except.error _ => Except.error "Failed to convert path to URL"

/-- Lookup in the document map (a `HashMap<Url, Document>` modelled as an
association list). -/
def lookupDoc (m : List (Url × Document)) (u : Url) : Option Document :=
  (m.find? (fun kv => decide (kv.1 = u))).map (fun kv => kv.2)

/-- `HashMap::insert`: replace the binding for the key, keeping other keys. -/
def insertDoc (m : List (Url × Document)) (u : Url) (d : Document) :
    List (Url × Document) :=
  (m.filter (fun kv => !decide (kv.1 = u))) ++ [(u, d)]

/-- `HashMap::remove`. -/
def removeDoc (m : List (Url × Document)) (u : Url) : List (Url × Document) :=
  m.filter (fun kv => !decide (kv.1 = u))

/-- Model of `get_file_text_from_memory_or_disk` (source lines 156-173):
resolve the path; when the document map holds an overlay for the resolved
identity return its text, otherwise fall back to `DocumentInfo::from_pathbuf`
followed by `read_file` (a disk read, since the constructed info carries no
overlay). -/
def get_file_text_from_memory_or_disk (cwd : Option (List String))
    (document_map : List (Url × Document)) (disk : PathB → Option String)
    (file_path : PathB) : Except String String :=
  let url_mb : Option Url :=
    match pathbuf_to_url cwd file_path with
    | Except.ok u => some u
    | Except.error _ => none
  match url_mb.bind (fun url => lookupDoc document_map url) with
  | some doc => Except.ok doc.text
  | none =>
    match DocumentInfo.from_pathbuf cwd file_path with
    | Except.ok doc =>
      match doc.read_file disk with
      | some s => Except.ok s
      | none => Except.error "io error"
    | Except.error _ => Except.error "cannot parse filepath"

/-! ## Blacklist -/

/-- Source lines 219-238. -/
def BLACKLISTED_DIRS : List String :=
  ["target", "node_modules", "vendor", "build", "dist", "bin", "pkg",
   "lib", "lib64", "obj", "out", "venv", "env", "tmp", "temp", "logs",
   "coverage", "backup"]

/-- Model of Rust `str::starts_with(".")`: the first character is a dot. -/
def startsWithDot (s : String) : Bool :=
  match s.data with
  | [] => false
  | c :: _ => c = Char.ofNat 46

/-- Model of `is_this_inside_blacklisted_dir` (source lines 240-256): walk up
through the proper ancestors (every component except the last) and report
whether any ancestor name is blacklisted or starts with a dot. -/
def is_this_inside_blacklisted_dir (path : PathB) : Bool :=
  path.components.dropLast.any
    (fun name => BLACKLISTED_DIRS.contains name || startsWithDot name)

/-! ## Filesystem trees and the discovery walk -/

mutual
/-- A filesystem node: a file or a directory with children. -/
inductive FsTree where
  | file (name : String)
  | dir (name : String) (children : FsForest)
/-- A list of sibling filesystem nodes. -/
inductive FsForest where
  | nil
  | cons (t : FsTree) (ts : FsForest)
end

/-- Name (last path component) of a node. -/
def FsTree.name : FsTree → String
  | .file n => n
  | .dir n _ => n

mutual
/-- Model of `_ls_files_under_version_control_recursive` (source lines
258-305).  The source drives the traversal with an explicit pending-work
stack (`candidates`); here the same traversal is structural recursion over
the tree, which visits exactly the same nodes.  `pfx` is the absolute path
of the parent, so the current node lives at `pfx ++ [name]`.  A popped file
is kept iff `is_valid_file` accepts it; a popped directory whose own name is
in `BLACKLISTED_DIRS` is skipped (note: no leading-dot check here); otherwise
the version-control listing is used when available (its relative paths are
joined to the directory, bypassing both checks), and the children are
expanded manually when not. -/
def ls_files_under_version_control_recursive
    (valid : PathB → Bool) (vc : List String → Option (List (List String))) :
    List String → FsTree → List (List String)
  | pfx, .file n =>
    if valid ⟨true, pfx ++ [n]⟩ then [pfx ++ [n]] else []
  | pfx, .dir n children =>
    if BLACKLISTED_DIRS.contains n then []
    else
      match vc (pfx ++ [n]) with
      | some files => files.map (fun rel => pfx ++ [n] ++ rel)
      | none => ls_files_forest valid vc (pfx ++ [n]) children
/-- Expansion of a directory's children (the `WalkDir … max_depth(1)` step
feeding the pending-work stack). -/
def ls_files_forest
    (valid : PathB → Bool) (vc : List String → Option (List (List String))) :
    List String → FsForest → List (List String)
  | _, .nil => []
  | pfx, .cons t ts =>
    ls_files_under_version_control_recursive valid vc pfx t ++
    ls_files_forest valid vc pfx ts
end

/-- A workspace folder: the absolute path of its parent plus its subtree, so
that the folder's own path is `parent ++ [tree.name]`. -/
structure Folder where
  parent : List String
  tree : FsTree

/-- Model of `_retrieve_files_by_proj_folders` (source lines 307-314): walk
every folder and keep the successful `DocumentInfo::from_pathbuf` results
(walk output paths are absolute, so conversion always succeeds). -/
def retrieve_files_by_proj_folders (valid : PathB → Bool)
    (vc : List String → Option (List (List String))) (folders : List Folder) :
    List (List String) :=
  (folders.map
    (fun f => ls_files_under_version_control_recursive valid vc f.parent f.tree)).flatten

/-! ## Workspace state and effect traces -/

/-- Model of the claim-relevant fields of `DocumentsState` (source lines
108-118): folder list, known-files list, document overlay map, staleness
flag.  The derived caches and the watcher handle carry no state the claims
mention. -/
structure DocumentsState where
  workspace_folders : List Folder
  workspace_files : List Url
  document_map : List (Url × Document)
  cache_dirty : Bool

/-- One atomic effect: a single critical section (one lock acquisition) or
one external call performed by an operation.  `replaceWorkspaceFiles` is the
`clear()`-then-`extend()` pair performed under a single acquisition of the
`workspace_files` mutex (source lines 352-354). -/
inductive Eff where
  | setCacheDirty
  | replaceWorkspaceFiles (files : List Url)
  | extendWorkspaceFiles (files : List Url)
  | insertOverlay (u : Url) (d : Document)
  | removeOverlay (u : Url)
  | warnUnknownFile (u : Url)
  | astEnqueue (docs : List DocumentInfo) (force : Bool)
  | vecdbEnqueue (docs : List DocumentInfo) (force : Bool)
  | astRemoveFile (u : Url)
  | vecdbRemoveFile (u : Url)
  | astResetIndex
  | addWorkspaceFolder (f : Folder)
  | removeWorkspaceFolder (path : List String)
  | watchFolder (f : Folder)
  | unwatchFolder (path : List String)

/-- Effects that deliver a batch to a downstream indexer. -/
def isEnqueueEff : Eff → Bool
  | .astEnqueue _ _ => true
  | .vecdbEnqueue _ _ => true
  | _ => false

/-- State change performed by one effect (indexer calls and watcher
subscription changes do not touch `DocumentsState`). -/
def applyEff (st : DocumentsState) : Eff → DocumentsState
  | .setCacheDirty => { st with cache_dirty := true }
  | .replaceWorkspaceFiles fs => { st with workspace_files := fs }
  | .extendWorkspaceFiles fs =>
    { st with workspace_files := st.workspace_files ++ fs }
  | .insertOverlay u d => { st with document_map := insertDoc st.document_map u d }
  | .removeOverlay u => { st with document_map := removeDoc st.document_map u }
  | .addWorkspaceFolder f =>
    { st with workspace_folders := st.workspace_folders ++ [f] }
  | .removeWorkspaceFolder p =>
    { st with workspace_folders :=
        st.workspace_folders.filter (fun f => !decide (f.parent ++ [f.tree.name] = p)) }
  | _ => st

/-- Fold a trace of effects over a state, in order. -/
def applyTrace (st : DocumentsState) (tr : List Eff) : DocumentsState :=
  tr.foldl applyEff st

/-! ## Operations -/

/-- Model of `enqueue_files` (source lines 316-332): the AST indexer, when
present, receives the batch with `force = true`; the vector indexer, when
present, receives it with `force = false`; an absent indexer is skipped. -/
def enqueue_files (hasAst hasVecdb : Bool) (docs : List DocumentInfo) : List Eff :=
  (if hasAst then [Eff.astEnqueue docs true] else []) ++
  (if hasVecdb then [Eff.vecdbEnqueue docs false] else [])

/-- Model of `enqueue_all_files_from_workspace_folders` (source lines
334-368): re-walk every workspace folder, then — inside the write lock on the
global context — set the staleness flag and atomically replace the
known-files list (one acquisition of its mutex for `clear` plus `extend`),
and only afterwards hand the batch to each present indexer. -/
def enqueue_all_files_from_workspace_folders (hasAst hasVecdb : Bool)
    (valid : PathB → Bool) (vc : List String → Option (List (List String)))
    (st : DocumentsState) : List Eff :=
  let docs := (retrieve_files_by_proj_folders valid vc st.workspace_folders).map
    (fun p => DocumentInfo.mk (url_of_abs_path p) none)
  [Eff.setCacheDirty, Eff.replaceWorkspaceFiles (docs.map (fun d => d.uri))] ++
  (if hasAst then [Eff.astEnqueue docs false] else []) ++
  (if hasVecdb then [Eff.vecdbEnqueue docs true] else [])

/-- Model of `on_did_open` (source lines 376-394): insert the buffer overlay
into the document map, then set the staleness flag.  The source performs no
indexer call here. -/
def on_did_open (file_url : Url) (text : String) (language_id : String) : List Eff :=
  [Eff.insertOverlay file_url (Document.mk language_id text), Eff.setCacheDirty]

/-- Model of `on_did_change` (source lines 396-445): update the overlay in
place when the identity is present; otherwise log the consistency warning,
insert the document anyway, and set the staleness flag (`mark_dirty`).  When
the path passes `is_valid_file`, hand the single-document batch to the vector
indexer and then the AST indexer (in that source order).  Telemetry
(`sources_changed`) is out of scope. -/
def on_did_change (hasAst hasVecdb : Bool) (valid : PathB → Bool)
    (st : DocumentsState) (file_url : Url) (text : String) : List Eff :=
  let overlay :=
    match lookupDoc st.document_map file_url with
    | some old => ([], Document.mk old.language_id text)
    | none => ([Eff.warnUnknownFile file_url], Document.mk "unknown" text)
  let doc_info := DocumentInfo.mk file_url (some overlay.2)
  let mark_dirty : List Eff :=
    match lookupDoc st.document_map file_url with
    | some _ => []
    | none => [Eff.setCacheDirty]
  overlay.1 ++ [Eff.insertOverlay file_url overlay.2] ++ mark_dirty ++
  (if valid doc_info.get_path then
    (if hasVecdb then [Eff.vecdbEnqueue [doc_info] false] else []) ++
    (if hasAst then [Eff.astEnqueue [doc_info] false] else [])
  else [])

/-- Model of `on_did_delete` (source lines 447-485): remove the overlay, set
the staleness flag, then ask the vector indexer and the AST indexer (in that
order, when present) to drop the file. -/
def on_did_delete (hasAst hasVecdb : Bool) (file_url : Url) : List Eff :=
  [Eff.removeOverlay file_url, Eff.setCacheDirty] ++
  (if hasVecdb then [Eff.vecdbRemoveFile file_url] else []) ++
  (if hasAst then [Eff.astRemoveFile file_url] else [])

/-- Model of `add_folder` (source lines 487-507): push the folder, watch it,
walk it, and hand the resulting batch to each present indexer.  The source
neither touches `cache_dirty` nor `workspace_files` here. -/
def add_folder (hasAst hasVecdb : Bool) (valid : PathB → Bool)
    (vc : List String → Option (List (List String))) (f : Folder) : List Eff :=
  let docs := (ls_files_under_version_control_recursive valid vc f.parent f.tree).map
    (fun p => DocumentInfo.mk (url_of_abs_path p) none)
  [Eff.addWorkspaceFolder f, Eff.watchFolder f] ++
  (if hasAst then [Eff.astEnqueue docs false] else []) ++
  (if hasVecdb then [Eff.vecdbEnqueue docs false] else [])

/-- Model of `remove_folder` (source lines 509-525): drop the folder from the
list, unwatch it, reset the AST index when present, then run the full
rebuild on the remaining folders. -/
def remove_folder (hasAst hasVecdb : Bool) (valid : PathB → Bool)
    (vc : List String → Option (List (List String)))
    (st : DocumentsState) (path : List String) : List Eff :=
  let st' := { st with workspace_folders :=
    st.workspace_folders.filter (fun f => !decide (f.parent ++ [f.tree.name] = path)) }
  [Eff.removeWorkspaceFolder path, Eff.unwatchFolder path] ++
  (if hasAst then [Eff.astResetIndex] else []) ++
  enqueue_all_files_from_workspace_folders hasAst hasVecdb valid vc st'

/-! ## Filesystem watcher -/

/-- Event kinds delivered by the `notify` crate, as matched by the source:
`Create(CreateKind::File)`, `Modify(ModifyKind::Data(DataChange::Content))`
and `Remove(RemoveKind::File)` are acted on; `Any`, `Access(_)`, `Other` and
every remaining kind (the `_` arm: non-file creates, other modifies,
non-file removes) are ignored. -/
inductive WEventKind where
  | any
  | access
  | createFile
  | createOther
  | modifyContent
  | modifyOther
  | removeFile
  | removeOther
  | other
deriving DecidableEq

/-- A raw filesystem event: kind plus affected paths. -/
structure WEvent where
  kind : WEventKind
  paths : List PathB

/-- The docs-collection loop of the Create/Modify arm (source lines 532-545):
skip paths inside blacklisted directories, skip paths rejected by
`is_valid_file`, and for each survivor push
`DocumentInfo::new(pathbuf_to_url(path).unwrap())` — the `unwrap` panics when
the conversion fails, modelled by `none`. -/
def watcher_docs (valid : PathB → Bool) (cwd : Option (List String)) :
    List PathB → Option (List DocumentInfo)
  | [] => some []
  | p :: rest =>
    if is_this_inside_blacklisted_dir p then watcher_docs valid cwd rest
    else if valid p then
      match pathbuf_to_url cwd p with
      | Except.ok u =>
        (watcher_docs valid cwd rest).map (fun ds => DocumentInfo.mk u none :: ds)
      | Except.error _ => none
    else watcher_docs valid cwd rest

/-- Model of `file_watcher_thread` (source lines 527-574).  `alive` models
`gcx.upgrade()` succeeding.  The result is `none` when the handler panics
(the `unwrap` in the docs-collection loop), otherwise `some` trace:
* Create-of-file / Modify-with-content-change: collect surviving paths as
  overlay-free `DocumentInfo`s; when the batch is nonempty and the context is
  alive, a Create event first extends `workspace_files` with the batch's
  identities and then `enqueue_files` runs.
* Remove-of-file: when at least one path is not inside a blacklisted
  directory and the context is alive, run the full rebuild.
* Everything else is ignored. -/
def file_watcher_thread (hasAst hasVecdb : Bool) (valid : PathB → Bool)
    (vc : List String → Option (List (List String))) (cwd : Option (List String))
    (alive : Bool) (st : DocumentsState) (ev : WEvent) : Option (List Eff) :=
  match ev.kind with
  | .createFile | .modifyContent =>
    match watcher_docs valid cwd ev.paths with
    | none => none
    | some docs =>
      if docs.isEmpty then some []
      else if alive then
        some ((if ev.kind = .createFile then
                 [Eff.extendWorkspaceFiles (docs.map (fun d => d.uri))]
               else []) ++
              enqueue_files hasAst hasVecdb docs)
      else some []
  | .removeFile =>
    let never_mind := ev.paths.all (fun p => is_this_inside_blacklisted_dir p)
    if never_mind then some []
    else if alive then
      some (enqueue_all_files_from_workspace_folders hasAst hasVecdb valid vc st)
    else some []
  | _ => some []

/-! ## Helper lemmas -/

theorem hexVal_hexUpper (d : Nat) (h : d < 16) : hexVal (hexUpper d) = some d := by
  have hfin : ∀ x : Fin 16, hexVal (hexUpper x.val) = some x.val := by decide
  exact hfin ⟨d, h⟩

theorem percentDecodeAux_encodeChar (c : Char) (hc : c.toNat < 256) (t : List Char) :
    percentDecodeAux (percentEncodeChar c ++ t) =
      (percentDecodeAux t).map (fun l => c :: l) := by
  cases hne : needsEscape c with
  | true =>
    have hdivlt : c.toNat / 16 % 16 < 16 := Nat.mod_lt _ (by norm_num)
    have hmodlt : c.toNat % 16 < 16 := Nat.mod_lt _ (by norm_num)
    have h16 : c.toNat / 16 % 16 = c.toNat / 16 := Nat.mod_eq_of_lt (by omega)
    have hval : 16 * (c.toNat / 16 % 16) + c.toNat % 16 = c.toNat := by
      rw [h16]; omega
    simp only [percentEncodeChar, hne, if_true, List.cons_append, List.nil_append]
    simp only [percentDecodeAux, if_pos rfl, hexVal_hexUpper _ hdivlt,
      hexVal_hexUpper _ hmodlt, hval, Char.ofNat_toNat]
    simp
  | false =>
    have hne37 : ¬ (c = Char.ofNat 37) := by
      intro h37; rw [h37] at hne; exact absurd hne (by decide)
    have henc : percentEncodeChar c = [c] := by
      simp [percentEncodeChar, hne]
    rw [henc, List.singleton_append]
    match t with
    | [] => simp [percentDecodeAux, hne37]
    | [h1] => simp [percentDecodeAux, hne37]
    | h1 :: h2 :: rest2 => simp [percentDecodeAux, hne37]

theorem percentDecodeAux_encode : ∀ (s : List Char), (∀ c ∈ s, c.toNat < 256) →
    percentDecodeAux ((s.map percentEncodeChar).flatten) = some s := by
  intro s
  induction s with
  | nil => intro _; rfl
  | cons c rest ih =>
    intro h
    rw [List.map_cons, List.flatten_cons,
      percentDecodeAux_encodeChar c (h c (List.mem_cons_self c rest)),
      ih (fun x hx => h x (List.mem_cons_of_mem c hx))]
    rfl

theorem percentDecode_encode (s : String) (h : ∀ c ∈ s.data, c.toNat < 256) :
    percentDecode (percentEncode s) = some s := by
  unfold percentDecode percentEncode
  rw [show (String.mk ((s.data.map percentEncodeChar).flatten)).data
      = (s.data.map percentEncodeChar).flatten from rfl]
  rw [percentDecodeAux_encode s.data h]
  rfl

theorem mapM_percentDecode_encode : ∀ (comps : List String),
    (∀ comp ∈ comps, ∀ c ∈ comp.data, c.toNat < 256) →
    List.mapM percentDecode (comps.map percentEncode) = some comps := by
  intro comps
  induction comps with
  | nil => intro _; rfl
  | cons a l ih =>
    intro h
    rw [List.map_cons, List.mapM_cons,
      percentDecode_encode a (h a (List.mem_cons_self a l)),
      ih (fun x hx => h x (List.mem_cons_of_mem a hx))]
    rfl

theorem url_to_file_path_of_abs (comps : List String)
    (h : ∀ comp ∈ comps, ∀ c ∈ comp.data, c.toNat < 256) :
    url_to_file_path (url_of_abs_path comps) = some ⟨true, comps⟩ := by
  unfold url_to_file_path url_of_abs_path
  rw [mapM_percentDecode_encode comps h]
  rfl

theorem pathbuf_to_url_abs (cwd : Option (List String)) (comps : List String) :
    pathbuf_to_url cwd ⟨true, comps⟩ = Except.ok (url_of_abs_path comps) := rfl

/-- C9 (claim C9): resolving a path to an identity, converting the identity
back to a path, and resolving again yields the identical identity.  The
hypotheses restrict components to byte characters (code points below 256),
matching the byte-level model of the url crate's percent-encoding. -/
theorem c9_resolve_roundtrip (cwd cwd2 : Option (List String)) (p : PathB) (u : Url)
    (hp : ∀ comp ∈ p.components, ∀ c ∈ comp.data, c.toNat < 256)
    (hcwd : ∀ d, cwd = some d → ∀ comp ∈ d, ∀ c ∈ comp.data, c.toNat < 256)
    (hu : pathbuf_to_url cwd p = Except.ok u) :
    pathbuf_to_url cwd2 (DocumentInfo.mk u none).get_path = Except.ok u := by
  obtain ⟨pabs, pcomps⟩ := p
  cases pabs with
  | true =>
    have hu' : u = url_of_abs_path pcomps := by
      rw [pathbuf_to_url_abs] at hu
      exact (Except.ok.injEq _ _).mp hu.symm
    subst hu'
    show pathbuf_to_url cwd2 ((url_to_file_path (url_of_abs_path pcomps)).getD ⟨true, []⟩)
      = Except.ok (url_of_abs_path pcomps)
    rw [url_to_file_path_of_abs pcomps hp]
    rfl
  | false =>
    cases cwd with
    | none => exact absurd hu (by simp [pathbuf_to_url])
    | some d =>
      have hu' : u = url_of_abs_path (d ++ pcomps) := by
        simp only [pathbuf_to_url, url_from_file_path, Option.map_some] at hu
        simpa [url_of_abs_path, List.map_append] using hu.symm
      subst hu'
      have hall : ∀ comp ∈ d ++ pcomps, ∀ c ∈ comp.data, c.toNat < 256 := by
        intro comp hcomp
        rcases List.mem_append.mp hcomp with hd | hp'
        · exact hcwd d rfl comp hd
        · exact hp comp hp'
      show pathbuf_to_url cwd2
          ((url_to_file_path (url_of_abs_path (d ++ pcomps))).getD ⟨true, []⟩)
        = Except.ok (url_of_abs_path (d ++ pcomps))
      rw [url_to_file_path_of_abs _ hall]
      rfl

/-- Witness for C9 at a concrete path containing a character that needs
percent-escaping. -/
theorem c9_resolve_roundtrip_witness :
    pathbuf_to_url none (DocumentInfo.mk (url_of_abs_path ["home", "a b.rs"]) none).get_path
      = Except.ok (url_of_abs_path ["home", "a b.rs"]) :=
  c9_resolve_roundtrip none none ⟨true, ["home", "a b.rs"]⟩ _
    (by decide) (fun d h => nomatch h) rfl

/-- C1: for every identity with an active open-document overlay in the
document map, reading current content returns the overlay text, not the
on-disk content, even when the two differ; only when no overlay is present
is the content read from disk.  Part 1: `DocumentInfo::read_file` with an
overlay; part 2: without; part 3: `get_file_text_from_memory_or_disk` with
an overlay in the map; part 4: without (a plain disk read). -/
theorem c1_overlay_precedence :
    (∀ (disk : PathB → Option String) (di : DocumentInfo) (doc : Document),
      di.document = some doc → di.read_file disk = some doc.text) ∧
    (∀ (disk : PathB → Option String) (di : DocumentInfo),
      di.document = none → di.read_file disk = disk di.get_path) ∧
    (∀ (cwd : Option (List String)) (dmap : List (Url × Document))
        (disk : PathB → Option String) (fp : PathB) (u : Url) (doc : Document),
      pathbuf_to_url cwd fp = Except.ok u → lookupDoc dmap u = some doc →
      get_file_text_from_memory_or_disk cwd dmap disk fp = Except.ok doc.text) ∧
    (∀ (cwd : Option (List String)) (dmap : List (Url × Document))
        (disk : PathB → Option String) (fp : PathB) (u : Url),
      pathbuf_to_url cwd fp = Except.ok u → lookupDoc dmap u = none →
      get_file_text_from_memory_or_disk cwd dmap disk fp =
        match disk (DocumentInfo.mk u none).get_path with
        | some s => Except.ok s
        | none => Except.error "io error") := by
  refine ⟨?_, ?_, ?_, ?_⟩
  · intro disk di doc h
    simp [DocumentInfo.read_file, h]
  · intro disk di h
    simp [DocumentInfo.read_file, h]
  · intro cwd dmap disk fp u doc hu hd
    simp [get_file_text_from_memory_or_disk, hu, hd]
  · intro cwd dmap disk fp u hu hd
    simp [get_file_text_from_memory_or_disk, hu, hd,
      DocumentInfo.from_pathbuf, DocumentInfo.read_file]

/-- Witness for C1: overlay text "OVERLAY" wins over disk text "DISK". -/
theorem c1_overlay_precedence_witness :
    get_file_text_from_memory_or_disk none
      [(url_of_abs_path ["home", "a.rs"], Document.mk "rust" "OVERLAY")]
      (fun _ => some "DISK") ⟨true, ["home", "a.rs"]⟩ = Except.ok "OVERLAY" :=
  c1_overlay_precedence.2.2.1 none
    [(url_of_abs_path ["home", "a.rs"], Document.mk "rust" "OVERLAY")]
    (fun _ => some "DISK") ⟨true, ["home", "a.rs"]⟩
    (url_of_abs_path ["home", "a.rs"]) (Document.mk "rust" "OVERLAY") rfl rfl

/-! ## Discovery-walk blacklist lemmas -/

mutual
theorem ls_tree_blacklist_free (valid : PathB → Bool) (t : FsTree) :
    ∀ (pfx q : List String),
      q ∈ ls_files_under_version_control_recursive valid (fun _ => none) pfx t →
      ∃ rest, q = pfx ++ rest ∧ rest ≠ [] ∧
        ∀ c ∈ rest.dropLast, BLACKLISTED_DIRS.contains c = false := by
  match t with
  | .file n =>
    intro pfx q hq
    by_cases hv : valid ⟨true, pfx ++ [n]⟩ = true
    · rw [ls_files_under_version_control_recursive, if_pos hv] at hq
      refine ⟨[n], by simpa using hq, by simp, by simp⟩
    · rw [ls_files_under_version_control_recursive, if_neg hv] at hq
      exact absurd hq (List.not_mem_nil q)
  | .dir n children =>
    intro pfx q hq
    by_cases hbn : BLACKLISTED_DIRS.contains n = true
    · rw [ls_files_under_version_control_recursive, if_pos hbn] at hq
      exact absurd hq (List.not_mem_nil q)
    · rw [ls_files_under_version_control_recursive, if_neg hbn] at hq
      obtain ⟨rest', hq', hne', hbl'⟩ :=
        ls_forest_blacklist_free valid children (pfx ++ [n]) q hq
      refine ⟨n :: rest', by simpa [List.append_assoc] using hq', by simp, ?_⟩
      intro c hc
      rw [List.dropLast_cons_of_ne_nil hne'] at hc
      rcases List.mem_cons.mp hc with hcn | hcr
      · subst hcn; exact Bool.eq_false_iff.mpr hbn
      · exact hbl' c hcr
theorem ls_forest_blacklist_free (valid : PathB → Bool) (ts : FsForest) :
    ∀ (pfx q : List String),
      q ∈ ls_files_forest valid (fun _ => none) pfx ts →
      ∃ rest, q = pfx ++ rest ∧ rest ≠ [] ∧
        ∀ c ∈ rest.dropLast, BLACKLISTED_DIRS.contains c = false := by
  match ts with
  | .nil =>
    intro pfx q hq
    rw [ls_files_forest] at hq
    exact absurd hq (List.not_mem_nil q)
  | .cons t rest =>
    intro pfx q hq
    rw [ls_files_forest] at hq
    rcases List.mem_append.mp hq with h | h
    · exact ls_tree_blacklist_free valid t pfx q h
    · exact ls_forest_blacklist_free valid rest pfx q h
end

/-- Counterexample to C2 as stated: with a validity predicate that accepts
everything and no version-control tool, the discovery walk returns the file
`proj/.hidden/a.rs` even though its ancestor directory `.hidden` begins with
a dot (the watcher predicate classifies that very path as blacklisted). -/
theorem c2_blacklist_exclusion_counterexample :
    is_this_inside_blacklisted_dir ⟨true, ["proj", ".hidden", "a.rs"]⟩ = true ∧
    ["proj", ".hidden", "a.rs"] ∈
      ls_files_under_version_control_recursive (fun _ => true) (fun _ => none) []
        (FsTree.dir "proj" (FsForest.cons
          (FsTree.dir ".hidden" (FsForest.cons (FsTree.file "a.rs") FsForest.nil))
          FsForest.nil)) :=
  ⟨by decide, by decide⟩

/-- C2 amended: paths with an ancestor directory named in the blacklist or
beginning with a dot are excluded by the watcher event classification
regardless of the validity predicate (a blacklisted path contributes nothing
to the collected batch); the discovery walk guarantees only the weaker
property that, when no version-control listing is available, every returned
path has no blacklist-NAMED ancestor below the walk root — it does not
exclude dot-named ancestors (see the counterexample), and version-control
listings bypass the check entirely. -/
theorem c2_blacklist_exclusion_amended :
    (∀ (valid : PathB → Bool) (cwd : Option (List String)) (p : PathB)
        (ps1 ps2 : List PathB),
      is_this_inside_blacklisted_dir p = true →
      watcher_docs valid cwd (ps1 ++ p :: ps2) = watcher_docs valid cwd (ps1 ++ ps2)) ∧
    (∀ (valid : PathB → Bool) (pfx : List String) (t : FsTree) (q : List String),
      q ∈ ls_files_under_version_control_recursive valid (fun _ => none) pfx t →
      ∃ rest, q = pfx ++ rest ∧ rest ≠ [] ∧
        ∀ c ∈ rest.dropLast, BLACKLISTED_DIRS.contains c = false) := by
  constructor
  · intro valid cwd p ps1 ps2 hbl
    induction ps1 with
    | nil => simp [watcher_docs, hbl]
    | cons a rest ih =>
      simp only [List.cons_append, watcher_docs, List.append_eq, ih]
  · exact fun valid pfx t q hq => ls_tree_blacklist_free valid t pfx q hq

/-- Witness for C2 amended at concrete inputs: a path under `target` is
dropped by the watcher loop, and a clean walk output decomposes with no
blacklisted ancestor. -/
theorem c2_blacklist_exclusion_amended_witness :
    watcher_docs (fun _ => true) none [⟨true, ["proj", "target", "a.rs"]⟩] = some [] ∧
    ∃ rest, ["proj", "sub", "b.rs"] = [] ++ rest ∧ rest ≠ [] ∧
      ∀ c ∈ rest.dropLast, BLACKLISTED_DIRS.contains c = false := by
  constructor
  · have h := c2_blacklist_exclusion_amended.1 (fun _ => true) none
      ⟨true, ["proj", "target", "a.rs"]⟩ [] [] (by decide)
    simpa using h
  · exact c2_blacklist_exclusion_amended.2 (fun _ => true) []
      (FsTree.dir "proj" (FsForest.cons
        (FsTree.dir "sub" (FsForest.cons (FsTree.file "b.rs") FsForest.nil))
        FsForest.nil))
      ["proj", "sub", "b.rs"] (by decide)

/-! ## Trace lemmas -/

theorem applyTrace_append (st : DocumentsState) (l1 l2 : List Eff) :
    applyTrace st (l1 ++ l2) = applyTrace (applyTrace st l1) l2 :=
  List.foldl_append _ _ _ _

theorem lookupDoc_insertDoc (m : List (Url × Document)) (u : Url) (d : Document) :
    lookupDoc (insertDoc m u d) u = some d := by
  unfold lookupDoc insertDoc
  have h1 : (m.filter (fun kv => !decide (kv.1 = u))).find?
      (fun kv => decide (kv.1 = u)) = none := by
    rw [List.find?_eq_none]
    intro x hx
    have hmem := List.of_mem_filter hx
    simpa using hmem
  rw [List.find?_append, h1]
  simp [List.find?]

/-! ## Claims C6, C7, C8 -/

/-- Counterexample to C6 as stated: starting from a state whose staleness
flag is clear, a `changeDocument` for an identity already present in the
overlay map leaves the flag clear, and so does `addFolder`. -/
theorem c6_staleness_counterexample :
    (applyTrace
      ⟨[], [], [(url_of_abs_path ["home", "a.rs"], Document.mk "rust" "old")], false⟩
      (on_did_change true true (fun _ => true)
        ⟨[], [], [(url_of_abs_path ["home", "a.rs"], Document.mk "rust" "old")], false⟩
        (url_of_abs_path ["home", "a.rs"]) "new")).cache_dirty = false ∧
    (applyTrace ⟨[], [], [], false⟩
      (add_folder true true (fun _ => true) (fun _ => none)
        ⟨[], FsTree.file "f.rs"⟩)).cache_dirty = false :=
  ⟨rfl, rfl⟩

/-- C6 amended: `on_did_open`, `on_did_delete` and the full rebuild
(`enqueue_all_files_from_workspace_folders`, hence `remove_folder`) set the
staleness flag; `on_did_change` sets it only when the identity was not
already in the overlay map, and leaves it untouched when it was;
`add_folder` never touches it. -/
theorem c6_staleness_amended :
    (∀ (st : DocumentsState) (u : Url) (txt lang : String),
      (applyTrace st (on_did_open u txt lang)).cache_dirty = true) ∧
    (∀ (hasAst hasVecdb : Bool) (st : DocumentsState) (u : Url),
      (applyTrace st (on_did_delete hasAst hasVecdb u)).cache_dirty = true) ∧
    (∀ (hasAst hasVecdb : Bool) (valid : PathB → Bool)
        (vc : List String → Option (List (List String))) (st : DocumentsState),
      (applyTrace st
        (enqueue_all_files_from_workspace_folders hasAst hasVecdb valid vc st)).cache_dirty
        = true) ∧
    (∀ (hasAst hasVecdb : Bool) (valid : PathB → Bool) (st : DocumentsState)
        (u : Url) (txt : String),
      lookupDoc st.document_map u = none →
      (applyTrace st (on_did_change hasAst hasVecdb valid st u txt)).cache_dirty = true) ∧
    (∀ (hasAst hasVecdb : Bool) (valid : PathB → Bool) (st : DocumentsState)
        (u : Url) (txt : String) (d : Document),
      lookupDoc st.document_map u = some d →
      (applyTrace st (on_did_change hasAst hasVecdb valid st u txt)).cache_dirty
        = st.cache_dirty) ∧
    (∀ (hasAst hasVecdb : Bool) (valid : PathB → Bool)
        (vc : List String → Option (List (List String))) (f : Folder)
        (st : DocumentsState),
      (applyTrace st (add_folder hasAst hasVecdb valid vc f)).cache_dirty
        = st.cache_dirty) := by
  refine ⟨?_, ?_, ?_, ?_, ?_, ?_⟩
  · intro st u txt lang; rfl
  · intro hasAst hasVecdb st u
    cases hasAst <;> cases hasVecdb <;> rfl
  · intro hasAst hasVecdb valid vc st
    cases hasAst <;> cases hasVecdb <;> rfl
  · intro hasAst hasVecdb valid st u txt h
    simp only [on_did_change, h]
    cases hasAst <;> cases hasVecdb <;> split <;> rfl
  · intro hasAst hasVecdb valid st u txt d h
    simp only [on_did_change, h]
    cases hasAst <;> cases hasVecdb <;> split <;> rfl
  · intro hasAst hasVecdb valid vc f st
    cases hasAst <;> cases hasVecdb <;> rfl

/-- Witness for C6 amended: a change for an absent identity sets the flag. -/
theorem c6_staleness_amended_witness :
    (applyTrace ⟨[], [], [], false⟩
      (on_did_change true true (fun _ => true) ⟨[], [], [], false⟩
        (url_of_abs_path ["home", "b.rs"]) "txt")).cache_dirty = true :=
  c6_staleness_amended.2.2.2.1 true true (fun _ => true) ⟨[], [], [], false⟩
    (url_of_abs_path ["home", "b.rs"]) "txt" rfl

/-- Counterexample to C7 as stated: `on_did_open` performs no indexer
enqueue at all — its trace is exactly the overlay insertion followed by the
staleness-flag write, with no enqueue effect. -/
theorem c7_open_counterexample :
    on_did_open (url_of_abs_path ["home", "a.rs"]) "fn main" "rust"
      = [Eff.insertOverlay (url_of_abs_path ["home", "a.rs"])
           (Document.mk "rust" "fn main"), Eff.setCacheDirty] ∧
    (on_did_open (url_of_abs_path ["home", "a.rs"]) "fn main" "rust").filter
      isEnqueueEff = [] :=
  ⟨rfl, rfl⟩

/-- C7 amended: `on_did_open` inserts the buffer overlay into the document
map and sets the staleness flag, but triggers no change propagation: the
trace contains no enqueue effect, so neither indexer receives the opened
content from `on_did_open` (content reaches the indexers only through
`on_did_change` or a rebuild). -/
theorem c7_open_amended (st : DocumentsState) (u : Url) (txt lang : String) :
    (∀ e ∈ on_did_open u txt lang, isEnqueueEff e = false) ∧
    on_did_open u txt lang
      = [Eff.insertOverlay u (Document.mk lang txt), Eff.setCacheDirty] ∧
    lookupDoc (applyTrace st (on_did_open u txt lang)).document_map u
      = some (Document.mk lang txt) ∧
    (applyTrace st (on_did_open u txt lang)).cache_dirty = true := by
  refine ⟨?_, rfl, ?_, rfl⟩
  · intro e he
    rcases List.mem_cons.mp he with h | h
    · subst h; rfl
    · rcases List.mem_cons.mp h with h2 | h2
      · subst h2; rfl
      · exact absurd h2 (List.not_mem_nil e)
  · show lookupDoc (insertDoc st.document_map u (Document.mk lang txt)) u = _
    exact lookupDoc_insertDoc _ _ _

/-- Witness for C7 amended at a concrete opened document. -/
theorem c7_open_amended_witness :
    (on_did_open (url_of_abs_path ["w", "m.rs"]) "x" "rust").filter isEnqueueEff
      = [] := by
  have h := (c7_open_amended ⟨[], [], [], false⟩
    (url_of_abs_path ["w", "m.rs"]) "x" "rust").1
  rw [List.filter_eq_nil_iff]
  intro e he
  simp [h e he]

/-- C8: a `changeDocument` for an identity not previously present in the
store logs the consistency warning, inserts the document anyway with the
supplied text (language id "unknown"), and marks the store stale; the
operation completes normally. -/
theorem c8_unknown_change (hasAst hasVecdb : Bool) (valid : PathB → Bool)
    (st : DocumentsState) (u : Url) (txt : String)
    (h : lookupDoc st.document_map u = none) :
    Eff.warnUnknownFile u ∈ on_did_change hasAst hasVecdb valid st u txt ∧
    lookupDoc (applyTrace st
      (on_did_change hasAst hasVecdb valid st u txt)).document_map u
      = some (Document.mk "unknown" txt) ∧
    (applyTrace st (on_did_change hasAst hasVecdb valid st u txt)).cache_dirty
      = true := by
  refine ⟨?_, ?_, ?_⟩
  · simp [on_did_change, h]
  · simp only [on_did_change, h]
    cases hasAst <;> cases hasVecdb <;> split <;>
      exact lookupDoc_insertDoc _ _ _
  · simp only [on_did_change, h]
    cases hasAst <;> cases hasVecdb <;> split <;> rfl

/-- Witness for C8 at a concrete absent identity. -/
theorem c8_unknown_change_witness :
    Eff.warnUnknownFile (url_of_abs_path ["home", "c.rs"])
      ∈ on_did_change true true (fun _ => true) ⟨[], [], [], false⟩
          (url_of_abs_path ["home", "c.rs"]) "body" ∧
    lookupDoc (applyTrace ⟨[], [], [], false⟩
      (on_did_change true true (fun _ => true) ⟨[], [], [], false⟩
        (url_of_abs_path ["home", "c.rs"]) "body")).document_map
      (url_of_abs_path ["home", "c.rs"]) = some (Document.mk "unknown" "body") ∧
    (applyTrace ⟨[], [], [], false⟩
      (on_did_change true true (fun _ => true) ⟨[], [], [], false⟩
        (url_of_abs_path ["home", "c.rs"]) "body")).cache_dirty = true :=
  c8_unknown_change true true (fun _ => true) ⟨[], [], [], false⟩
    (url_of_abs_path ["home", "c.rs"]) "body" rfl

/-! ## Watcher-loop lemmas -/

theorem watcher_docs_spec (valid : PathB → Bool) (cwd : Option (List String)) :
    ∀ (ps : List PathB) (docs : List DocumentInfo),
      watcher_docs valid cwd ps = some docs →
      (∀ d ∈ docs, d.document = none) ∧
      (∀ p ∈ ps, is_this_inside_blacklisted_dir p = false → valid p = true →
        ∃ u, pathbuf_to_url cwd p = Except.ok u ∧ DocumentInfo.mk u none ∈ docs) := by
  intro ps
  induction ps with
  | nil =>
    intro docs h
    rw [watcher_docs] at h
    cases h
    exact ⟨fun d hd => absurd hd (List.not_mem_nil d),
           fun p hp => absurd hp (List.not_mem_nil p)⟩
  | cons p rest ih =>
    intro docs h
    rw [watcher_docs] at h
    by_cases hbl : is_this_inside_blacklisted_dir p = true
    · rw [if_pos hbl] at h
      obtain ⟨h1, h2⟩ := ih docs h
      refine ⟨h1, ?_⟩
      intro q hq hqb hqv
      rcases List.mem_cons.mp hq with rfl | hq'
      · rw [hbl] at hqb; cases hqb
      · exact h2 q hq' hqb hqv
    · rw [if_neg hbl] at h
      by_cases hv : valid p = true
      · rw [if_pos hv] at h
        cases hurl : pathbuf_to_url cwd p with
        | error e => rw [hurl] at h; cases h
        | ok u =>
          rw [hurl] at h
          cases hrest : watcher_docs valid cwd rest with
          | none => rw [hrest] at h; cases h
          | some ds =>
            rw [hrest] at h
            have hdocs : DocumentInfo.mk u none :: ds = docs := by
              simpa using h
            obtain ⟨h1, h2⟩ := ih ds hrest
            subst hdocs
            constructor
            · intro d hd
              rcases List.mem_cons.mp hd with rfl | hd'
              · rfl
              · exact h1 d hd'
            · intro q hq hqb hqv
              rcases List.mem_cons.mp hq with rfl | hq'
              · exact ⟨u, hurl, List.mem_cons_self _ _⟩
              · obtain ⟨u', hu', hmem⟩ := h2 q hq' hqb hqv
                exact ⟨u', hu', List.mem_cons_of_mem _ hmem⟩
      · rw [if_neg hv] at h
        obtain ⟨h1, h2⟩ := ih docs h
        refine ⟨h1, ?_⟩
        intro q hq hqb hqv
        rcases List.mem_cons.mp hq with rfl | hq'
        · exact absurd hqv hv
        · exact h2 q hq' hqb hqv

theorem applyTrace_enqueue_only : ∀ (l : List Eff) (st : DocumentsState),
    (∀ e ∈ l, isEnqueueEff e = true) → applyTrace st l = st := by
  intro l
  induction l with
  | nil => intro st _; rfl
  | cons e rest ih =>
    intro st h
    have he := h e (List.mem_cons_self e rest)
    have hst : applyEff st e = st := by
      cases e <;> simp [isEnqueueEff] at he <;> rfl
    show applyTrace (applyEff st e) rest = st
    rw [hst]
    exact ih st (fun x hx => h x (List.mem_cons_of_mem e hx))

/-! ## Claims C3, C4, C5, C10 -/

/-- C3: for a Create-of-file (or Modify-with-content-change) event, every
path that is not inside a blacklisted directory and passes the validity
predicate becomes an overlay-free `DocumentInfo` in the batch; on a Create
event the surviving identities are appended to the known-files list (the
`extendWorkspaceFiles` critical section) before the enqueue effects, and
both present indexers receive the batch; on a Modify event the same batch is
enqueued with no append. -/
theorem c3_create_modify_classification :
    (∀ (valid : PathB → Bool) (vc : List String → Option (List (List String)))
        (cwd : Option (List String)) (st : DocumentsState) (ev : WEvent)
        (docs : List DocumentInfo),
      ev.kind = WEventKind.createFile →
      watcher_docs valid cwd ev.paths = some docs →
      docs ≠ [] →
      (∀ d ∈ docs, d.document = none) ∧
      (∀ p ∈ ev.paths, is_this_inside_blacklisted_dir p = false → valid p = true →
        ∃ u, pathbuf_to_url cwd p = Except.ok u ∧ DocumentInfo.mk u none ∈ docs) ∧
      file_watcher_thread true true valid vc cwd true st ev =
        some (Eff.extendWorkspaceFiles (docs.map (fun d => d.uri)) ::
              [Eff.astEnqueue docs true, Eff.vecdbEnqueue docs false]) ∧
      (applyTrace st
        [Eff.extendWorkspaceFiles (docs.map (fun d => d.uri))]).workspace_files
        = st.workspace_files ++ docs.map (fun d => d.uri)) ∧
    (∀ (valid : PathB → Bool) (vc : List String → Option (List (List String)))
        (cwd : Option (List String)) (st : DocumentsState) (ev : WEvent)
        (docs : List DocumentInfo),
      ev.kind = WEventKind.modifyContent →
      watcher_docs valid cwd ev.paths = some docs →
      docs ≠ [] →
      (∀ d ∈ docs, d.document = none) ∧
      file_watcher_thread true true valid vc cwd true st ev =
        some [Eff.astEnqueue docs true, Eff.vecdbEnqueue docs false]) := by
  constructor
  · intro valid vc cwd st ev docs hk hdocs hne
    obtain ⟨kd, paths⟩ := ev
    simp only at hk
    subst hk
    simp only at hdocs
    obtain ⟨h1, h2⟩ := watcher_docs_spec valid cwd paths docs hdocs
    have hempty : docs.isEmpty = false := by
      simpa [List.isEmpty_iff] using hne
    refine ⟨h1, h2, ?_, rfl⟩
    simp [file_watcher_thread, hdocs, hempty, enqueue_files]
  · intro valid vc cwd st ev docs hk hdocs hne
    obtain ⟨kd, paths⟩ := ev
    simp only at hk
    subst hk
    simp only at hdocs
    obtain ⟨h1, _⟩ := watcher_docs_spec valid cwd paths docs hdocs
    have hempty : docs.isEmpty = false := by
      simpa [List.isEmpty_iff] using hne
    refine ⟨h1, ?_⟩
    simp [file_watcher_thread, hdocs, hempty, enqueue_files]

/-- Witness for C3: a Create event for one valid path outside blacklisted
directories extends the known-files list and enqueues to both indexers. -/
theorem c3_create_modify_classification_witness :
    file_watcher_thread true true (fun _ => true) (fun _ => none) none true
      ⟨[], [], [], false⟩
      ⟨WEventKind.createFile, [⟨true, ["ws", "new.rs"]⟩]⟩ =
      some (Eff.extendWorkspaceFiles [url_of_abs_path ["ws", "new.rs"]] ::
            [Eff.astEnqueue [DocumentInfo.mk (url_of_abs_path ["ws", "new.rs"]) none] true,
             Eff.vecdbEnqueue [DocumentInfo.mk (url_of_abs_path ["ws", "new.rs"]) none] false]) := by
  have h := (c3_create_modify_classification.1 (fun _ => true) (fun _ => none) none
    ⟨[], [], [], false⟩ ⟨WEventKind.createFile, [⟨true, ["ws", "new.rs"]⟩]⟩
    [DocumentInfo.mk (url_of_abs_path ["ws", "new.rs"]) none]
    rfl rfl (by simp)).2.2.1
  simpa using h

/-- C4: for a Remove-of-file event (with a live context), a full rediscovery
of all workspace folders is triggered exactly when at least one path of the
event is not inside a blacklisted directory; when every path (vacuously, the
empty event included) is inside a blacklisted directory, the trace is empty
and the state — the known-files set included — is unchanged. -/
theorem c4_remove_event (hasAst hasVecdb : Bool) (valid : PathB → Bool)
    (vc : List String → Option (List (List String))) (cwd : Option (List String))
    (st : DocumentsState) (ev : WEvent)
    (hk : ev.kind = WEventKind.removeFile) :
    ((∃ p ∈ ev.paths, is_this_inside_blacklisted_dir p = false) →
      file_watcher_thread hasAst hasVecdb valid vc cwd true st ev =
        some (enqueue_all_files_from_workspace_folders hasAst hasVecdb valid vc st) ∧
      Eff.replaceWorkspaceFiles
          (((retrieve_files_by_proj_folders valid vc st.workspace_folders).map
            (fun p => DocumentInfo.mk (url_of_abs_path p) none)).map (fun d => d.uri))
        ∈ enqueue_all_files_from_workspace_folders hasAst hasVecdb valid vc st) ∧
    ((∀ p ∈ ev.paths, is_this_inside_blacklisted_dir p = true) →
      file_watcher_thread hasAst hasVecdb valid vc cwd true st ev = some [] ∧
      applyTrace st [] = st) := by
  obtain ⟨kd, paths⟩ := ev
  simp only at hk
  subst hk
  constructor
  · intro hex
    have hall : paths.all (fun p => is_this_inside_blacklisted_dir p) = false := by
      obtain ⟨p, hp, hpf⟩ := hex
      cases hAll : paths.all (fun p => is_this_inside_blacklisted_dir p) with
      | false => rfl
      | true =>
        rw [List.all_eq_true] at hAll
        rw [hAll p hp] at hpf
        cases hpf
    constructor
    · simp [file_watcher_thread, hall]
    · simp [enqueue_all_files_from_workspace_folders]
  · intro hall
    have hallb : paths.all (fun p => is_this_inside_blacklisted_dir p) = true := by
      rw [List.all_eq_true]; exact hall
    exact ⟨by simp [file_watcher_thread, hallb], rfl⟩

/-- Witness for C4: a removed file outside blacklisted directories triggers
the rebuild; one purely inside `target` leaves everything untouched. -/
theorem c4_remove_event_witness :
    file_watcher_thread true true (fun _ => true) (fun _ => none) none true
      ⟨[], [], [], false⟩ ⟨WEventKind.removeFile, [⟨true, ["proj", "a.rs"]⟩]⟩ =
      some (enqueue_all_files_from_workspace_folders true true (fun _ => true)
        (fun _ => none) ⟨[], [], [], false⟩) ∧
    file_watcher_thread true true (fun _ => true) (fun _ => none) none true
      ⟨[], [], [], false⟩
      ⟨WEventKind.removeFile, [⟨true, ["proj", "target", "b.rs"]⟩]⟩ = some [] := by
  constructor
  · exact ((c4_remove_event true true (fun _ => true) (fun _ => none) none
      ⟨[], [], [], false⟩ ⟨WEventKind.removeFile, [⟨true, ["proj", "a.rs"]⟩]⟩ rfl).1
      ⟨⟨true, ["proj", "a.rs"]⟩, by simp, by decide⟩).1
  · exact ((c4_remove_event true true (fun _ => true) (fun _ => none) none
      ⟨[], [], [], false⟩
      ⟨WEventKind.removeFile, [⟨true, ["proj", "target", "b.rs"]⟩]⟩ rfl).2
      (by decide)).1

/-- C5: the full rebuild emits the staleness-flag write and the atomic
known-files replacement (one critical section performing clear plus extend)
strictly before any indexer enqueue effect; every remaining effect is an
enqueue, so an observer of the known-files list after any prefix of the
trace sees either the pre-rebuild or the post-rebuild contents, and at every
enqueue effect the flag is already set and the list already replaced. -/
theorem c5_full_rebuild_atomicity (hasAst hasVecdb : Bool) (valid : PathB → Bool)
    (vc : List String → Option (List (List String))) (st : DocumentsState) :
    ∃ fs enq,
      fs = ((retrieve_files_by_proj_folders valid vc st.workspace_folders).map
        (fun p => DocumentInfo.mk (url_of_abs_path p) none)).map (fun d => d.uri) ∧
      enqueue_all_files_from_workspace_folders hasAst hasVecdb valid vc st =
        Eff.setCacheDirty :: Eff.replaceWorkspaceFiles fs :: enq ∧
      (∀ e ∈ enq, isEnqueueEff e = true) ∧
      (∀ pfx suffix,
        enqueue_all_files_from_workspace_folders hasAst hasVecdb valid vc st =
          pfx ++ suffix →
        (applyTrace st pfx).workspace_files = st.workspace_files ∨
        (applyTrace st pfx).workspace_files = fs) ∧
      (∀ pfx e suffix,
        enqueue_all_files_from_workspace_folders hasAst hasVecdb valid vc st =
          pfx ++ e :: suffix →
        isEnqueueEff e = true →
        (applyTrace st pfx).cache_dirty = true ∧
        (applyTrace st pfx).workspace_files = fs) := by
  set docs := (retrieve_files_by_proj_folders valid vc st.workspace_folders).map
    (fun p => DocumentInfo.mk (url_of_abs_path p) none) with hdocs
  refine ⟨docs.map (fun d => d.uri),
    (if hasAst then [Eff.astEnqueue docs false] else []) ++
    (if hasVecdb then [Eff.vecdbEnqueue docs true] else []),
    rfl, rfl, ?_, ?_, ?_⟩
  · intro e he
    rcases List.mem_append.mp he with h | h <;>
      (cases hasAst <;> cases hasVecdb <;> simp_all [isEnqueueEff])
  · intro pfx suffix heq
    cases pfx with
    | nil => exact Or.inl rfl
    | cons e1 pfx1 =>
      rw [List.cons_append] at heq
      injection heq with h1 h2
      subst h1
      cases pfx1 with
      | nil => exact Or.inl rfl
      | cons e2 pfx2 =>
        rw [List.cons_append] at h2
        injection h2 with h3 h4
        subst h3
        refine Or.inr ?_
        have hrest : applyTrace (applyTrace st
            [Eff.setCacheDirty, Eff.replaceWorkspaceFiles (docs.map (fun d => d.uri))])
            pfx2 = applyTrace st
            [Eff.setCacheDirty, Eff.replaceWorkspaceFiles (docs.map (fun d => d.uri))] := by
          apply applyTrace_enqueue_only
          intro x hx
          have hx' : x ∈ (if hasAst then [Eff.astEnqueue docs false] else []) ++
              (if hasVecdb then [Eff.vecdbEnqueue docs true] else []) := by
            have h4' := h4
            simp only [List.append_eq, List.nil_append, ← hdocs] at h4'
            rw [h4']
            exact List.mem_append_left _ hx
          rcases List.mem_append.mp hx' with h | h <;>
            (cases hasAst <;> cases hasVecdb <;> simp_all [isEnqueueEff])
        show (applyTrace (applyTrace st
          [Eff.setCacheDirty, Eff.replaceWorkspaceFiles (docs.map (fun d => d.uri))])
          pfx2).workspace_files = _
        rw [hrest]
        rfl
  · intro pfx e suffix heq he
    cases pfx with
    | nil =>
      injection heq with h1 h2
      rw [← h1] at he
      cases he
    | cons e1 pfx1 =>
      rw [List.cons_append] at heq
      injection heq with h1 h2
      subst h1
      cases pfx1 with
      | nil =>
        injection h2 with h3 h4
        rw [← h3] at he
        cases he
      | cons e2 pfx2 =>
        rw [List.cons_append] at h2
        injection h2 with h3 h4
        subst h3
        have hrest : applyTrace (applyTrace st
            [Eff.setCacheDirty, Eff.replaceWorkspaceFiles (docs.map (fun d => d.uri))])
            pfx2 = applyTrace st
            [Eff.setCacheDirty, Eff.replaceWorkspaceFiles (docs.map (fun d => d.uri))] := by
          apply applyTrace_enqueue_only
          intro x hx
          have hx' : x ∈ (if hasAst then [Eff.astEnqueue docs false] else []) ++
              (if hasVecdb then [Eff.vecdbEnqueue docs true] else []) := by
            have h4' := h4
            simp only [List.append_eq, List.nil_append, ← hdocs] at h4'
            rw [h4']
            exact List.mem_append_left _ hx
          rcases List.mem_append.mp hx' with h | h <;>
            (cases hasAst <;> cases hasVecdb <;> simp_all [isEnqueueEff])
        constructor
        · show (applyTrace (applyTrace st
            [Eff.setCacheDirty, Eff.replaceWorkspaceFiles (docs.map (fun d => d.uri))])
            pfx2).cache_dirty = true
          rw [hrest]; rfl
        · show (applyTrace (applyTrace st
            [Eff.setCacheDirty, Eff.replaceWorkspaceFiles (docs.map (fun d => d.uri))])
            pfx2).workspace_files = _
          rw [hrest]; rfl

/-- Witness for C5: the full conclusion at a one-folder concrete state. -/
theorem c5_full_rebuild_atomicity_witness :
    ∃ fs enq,
      fs = ((retrieve_files_by_proj_folders (fun _ => true) (fun _ => none)
        [⟨[], FsTree.dir "ws" (FsForest.cons (FsTree.file "a.rs") FsForest.nil)⟩]).map
        (fun p => DocumentInfo.mk (url_of_abs_path p) none)).map (fun d => d.uri) ∧
      enqueue_all_files_from_workspace_folders true true (fun _ => true) (fun _ => none)
        ⟨[⟨[], FsTree.dir "ws" (FsForest.cons (FsTree.file "a.rs") FsForest.nil)⟩],
          [], [], false⟩ =
        Eff.setCacheDirty :: Eff.replaceWorkspaceFiles fs :: enq ∧
      (∀ e ∈ enq, isEnqueueEff e = true) ∧
      (∀ pfx suffix,
        enqueue_all_files_from_workspace_folders true true (fun _ => true) (fun _ => none)
          ⟨[⟨[], FsTree.dir "ws" (FsForest.cons (FsTree.file "a.rs") FsForest.nil)⟩],
            [], [], false⟩ = pfx ++ suffix →
        (applyTrace ⟨[⟨[], FsTree.dir "ws" (FsForest.cons (FsTree.file "a.rs") FsForest.nil)⟩],
            [], [], false⟩ pfx).workspace_files =
          (⟨[⟨[], FsTree.dir "ws" (FsForest.cons (FsTree.file "a.rs") FsForest.nil)⟩],
            [], [], false⟩ : DocumentsState).workspace_files ∨
        (applyTrace ⟨[⟨[], FsTree.dir "ws" (FsForest.cons (FsTree.file "a.rs") FsForest.nil)⟩],
            [], [], false⟩ pfx).workspace_files = fs) ∧
      (∀ pfx e suffix,
        enqueue_all_files_from_workspace_folders true true (fun _ => true) (fun _ => none)
          ⟨[⟨[], FsTree.dir "ws" (FsForest.cons (FsTree.file "a.rs") FsForest.nil)⟩],
            [], [], false⟩ = pfx ++ e :: suffix →
        isEnqueueEff e = true →
        (applyTrace ⟨[⟨[], FsTree.dir "ws" (FsForest.cons (FsTree.file "a.rs") FsForest.nil)⟩],
            [], [], false⟩ pfx).cache_dirty = true ∧
        (applyTrace ⟨[⟨[], FsTree.dir "ws" (FsForest.cons (FsTree.file "a.rs") FsForest.nil)⟩],
            [], [], false⟩ pfx).workspace_files = fs) :=
  c5_full_rebuild_atomicity true true (fun _ => true) (fun _ => none)
    ⟨[⟨[], FsTree.dir "ws" (FsForest.cons (FsTree.file "a.rs") FsForest.nil)⟩],
      [], [], false⟩

/-- C10, recorded as a code bug: the watcher handler calls
`pathbuf_to_url(path).unwrap()` on every surviving path (source line 539),
so a Create event carrying a path that cannot be resolved to an identity
(here: a relative path while the current directory cannot be read) makes
the handler panic — the model returns `none` — instead of completing with
the failure contained, contradicting the error-propagation policy the
surrounding code otherwise follows. -/
theorem c10_watcher_unwrap_panics :
    file_watcher_thread true true (fun _ => true) (fun _ => none) none true
      ⟨[], [], [], false⟩
      ⟨WEventKind.createFile, [⟨false, ["foo.rs"]⟩]⟩ = none := rfl
